import Mathlib

/-!
Verification development for the output-classification and running-state
tracking pipeline of the claude-code-monitor repository.

The embedding covers, faithfully to the TypeScript source:
  - OutputParser (src/monitor/outputParser.ts): ANSI cleaning, the regex
    cascade of parseLine, dynamic MCP discovery;
  - TerminalListener.handleTerminalData and its helpers
    (src/monitor/terminalListener.ts): the quick relevance filter, the
    user-input filter, deduplication, start tracking with setTimeout-based
    auto-stop, end-signal bulk stop, the bounded event buffer;
  - ItemTypeResolver (src/monitor/itemTypeResolver.ts): the Map cache,
    resolveType, and the per-source isolated cache rebuild.

JavaScript strings are modelled as List Char.  The regex character classes
\w, \d, [A-Za-z] are exactly ASCII in JS, and are modelled as such; \s is
modelled by its ASCII members (space, tab, newline, carriage return,
vertical tab, form feed), which is the full set for every input considered
here.  setTimeout / clearTimeout are modelled by an explicit list of timer
records carrying a handle (tid), a fire time and a cancelled flag; wall
clock time is an explicit Nat parameter.  Date objects attached to events
are not modelled (no claim inspects them).
-/

namespace CCMonitor

abbrev Str := List Char

/-- ASCII members of the JS regex class \s (and of String.prototype.trim). -/
def isWsChar (c : Char) : Bool :=
  c = ' ' || c = '\t' || c = '\n' || c = '\r' || c = '\x0b' || c = '\x0c'

/-- JS regex class \d. -/
def isDigitChar (c : Char) : Bool := c.isDigit

/-- JS regex class \w = [A-Za-z0-9_]. -/
def isWordChar (c : Char) : Bool := c.isAlpha || c.isDigit || c = '_'

/-- The class [\w-] used by the bulleted-name patterns. -/
def isWordDash (c : Char) : Bool := isWordChar c || c = '-'

/-- String.prototype.trim. -/
def trimList (cs : Str) : Str :=
  ((cs.dropWhile isWsChar).reverse.dropWhile isWsChar).reverse

/-- Whether pre is a prefix of cs (anchored match of a literal). -/
def listStartsWith : Str → Str → Bool
  | [], _ => true
  | _ :: _, [] => false
  | p :: ps, c :: cs => p = c && listStartsWith ps cs

/-- Strip a literal prefix, returning the remainder on success. -/
def stripLit : Str → Str → Option Str
  | [], cs => some cs
  | _ :: _, [] => none
  | p :: ps, c :: cs => if p = c then stripLit ps cs else none

/-- Does p hold of some suffix of cs (including the empty suffix)?
Models an unanchored regex search position by position. -/
def existsPos (p : Str → Bool) : Str → Bool
  | [] => p []
  | c :: tl => p (c :: tl) || existsPos p (tl)

/-- Unanchored literal-substring search (String.prototype.includes /
an unanchored regex literal). -/
def containsSub (pat : Str) (cs : Str) : Bool :=
  existsPos (fun s => listStartsWith pat s) cs

/-- Case-insensitive variant (models a /.../i regex on ASCII). -/
def containsSubCI (pat : Str) (cs : Str) : Bool :=
  containsSub (pat.map Char.toLower) (cs.map Char.toLower)

/-- Association-list model of a JS Map: lookup by key. -/
def alLookup [DecidableEq α] : List (α × β) → α → Option β
  | [], _ => none
  | p :: tl, k => if p.1 = k then some p.2 else alLookup tl k

/-- Association-list model of Map.set: update in place, else append
(JS Maps keep insertion order and update existing keys in place). -/
def alSet [DecidableEq α] : List (α × β) → α → β → List (α × β)
  | [], k, v => [(k, v)]
  | p :: tl, k, v => if p.1 = k then (k, v) :: tl else p :: alSet tl k v

/-- Association-list model of Map.delete. -/
def alDelete [DecidableEq α] : List (α × β) → α → List (α × β)
  | [], _ => []
  | p :: tl, k => if p.1 = k then alDelete tl k else p :: alDelete tl k

/-!  ANSI cleaning.

OutputParser.parse starts with
  output.replace(/\[\d+m|\[\d+[;]?\d*[m;]*|[\x1b\x0f]\[[0-9;]*[a-zA-Z]/g, '')
The three alternatives are tried in order at each position (JS alternation
is leftmost-first); each alternative is deterministic because its
character classes are pairwise disjoint where repetition meets what
follows.  The global replace scans left to right, resuming after each
match. -/

/-- Digit-or-semicolon class of the third ANSI alternative. -/
def isDigitSemi (c : Char) : Bool := c.isDigit || c = ';'

/-- Try the ANSI-escape alternation at the head of cs; on success return
the remainder after the (nonempty) match. -/
def tryAnsiMatch (cs : Str) : Option Str :=
  match cs with
  | '[' :: rest =>
    let ds := rest.takeWhile isDigitChar
    let r1 := rest.dropWhile isDigitChar
    if ds.isEmpty then none
    else
      match r1 with
      | 'm' :: r2 => some r2          -- first alternative  \[\d+m
      | _ =>                          -- second alternative \[\d+[;]?\d*[m;]*
        let r2 := match r1 with
                  | ';' :: t => t
                  | _ => r1
        let r3 := r2.dropWhile isDigitChar
        some (r3.dropWhile (fun c => c = 'm' || c = ';'))
  | e :: '[' :: rest =>
    if e = '\x1b' || e = '\x0f' then  -- third alternative [\x1b\x0f]\[[0-9;]*[a-zA-Z]
      match rest.dropWhile isDigitSemi with
      | c :: r2 => if c.isAlpha then some r2 else none
      | [] => none
    else none
  | _ => none

/-- Fuel-indexed global replace; every successful match consumes at least
one character, so fuel = input length suffices. -/
def ansiCleanAux : Nat → Str → Str
  | 0, cs => cs
  | _ + 1, [] => []
  | n + 1, c :: rest =>
    match tryAnsiMatch (c :: rest) with
    | some rem => ansiCleanAux n rem
    | none => c :: ansiCleanAux n rest

/-- The ANSI/control-sequence cleaning applied by OutputParser.parse. -/
def ansiClean (cs : Str) : Str := ansiCleanAux cs.length cs

/-- String.prototype.split on a newline. -/
def splitNl : Str → List Str
  | [] => [[]]
  | c :: rest =>
    if c = '\n' then [] :: splitNl rest
    else
      match splitNl rest with
      | l :: ls => (c :: l) :: ls
      | [] => [[c]]

/-!  The regex matchers of OutputParser, one executable function per
pattern, each returning the captured groups on success. -/

/-- The optional tail (?:\(([^)]+)\))?$ shared by the three bulleted
patterns: either end of line, or a parenthesized nonempty description
followed by end of line. -/
def matchOptParen (cs : Str) : Option (Option Str) :=
  match cs with
  | [] => some none
  | '(' :: rest =>
    let d := rest.takeWhile (fun c => !(c = ')'))
    if d.isEmpty then none
    else
      match rest.dropWhile (fun c => !(c = ')')) with
      | [')'] => some (some d)
      | _ => none
  | _ => none

/-- SKILL_FORMAT_PATTERN = /^●\s*\/\s*([\w-]+)(?:\(([^)]+)\))?$/ -/
def skillFormatMatch (cs : Str) : Option (Str × Option Str) :=
  match cs with
  | [] => none
  | c :: rest =>
    if c = '●' then
      match rest.dropWhile isWsChar with
      | '/' :: r2 =>
        let r3 := r2.dropWhile isWsChar
        let name := r3.takeWhile isWordDash
        if name.isEmpty then none
        else
          match matchOptParen (r3.dropWhile isWordDash) with
          | some d => some (name, d)
          | none => none
      | _ => none
    else none

/-- MCP_FORMAT_PATTERN = /^●\s*mcp[-_:]([a-zA-Z0-9_-]+)(?:\(([^)]+)\))?$/
(the class [a-zA-Z0-9_-] coincides with [\w-]). -/
def mcpFormatMatch (cs : Str) : Option (Str × Option Str) :=
  match cs with
  | [] => none
  | c :: rest =>
    if !(c = '●') then none
    else
    match rest.dropWhile isWsChar with
    | 'm' :: 'c' :: 'p' :: sep :: r2 =>
      if sep = '-' || sep = '_' || sep = ':' then
        let name := r2.takeWhile isWordDash
        if name.isEmpty then none
        else
          match matchOptParen (r2.dropWhile isWordDash) with
          | some d => some (name, d)
          | none => none
      else none
    | _ => none

/-- AGENT_FORMAT_PATTERN = /^●\s*([\w-]+)(?:\(([^)]+)\))?$/ -/
def agentFormatMatch (cs : Str) : Option (Str × Option Str) :=
  match cs with
  | [] => none
  | c :: rest =>
    if !(c = '●') then none
    else
      let r := rest.dropWhile isWsChar
      let name := r.takeWhile isWordDash
      if name.isEmpty then none
      else
        match matchOptParen (r.dropWhile isWordDash) with
        | some d => some (name, d)
        | none => none

/-- Common body of SKILL_CALL_PATTERN and AGENT_CALL_PATTERN after their
literal [skill] / [agent] prefix: \s+(\w+):\s*(.+)$ (applied to trimmed
lines, where greedy \s+ / \s* need no backtracking). -/
def bracketCallTail (cs : Str) : Option (Str × Str) :=
  match cs with
  | c :: rest =>
    if isWsChar c then
      let r := rest.dropWhile isWsChar
      let name := r.takeWhile isWordChar
      if name.isEmpty then none
      else
        match r.dropWhile isWordChar with
        | ':' :: r2 =>
          let content := r2.dropWhile isWsChar
          if content.isEmpty then none else some (name, content)
        | _ => none
    else none
  | [] => none

/-- SKILL_CALL_PATTERN = /^\[skill\]\s+(\w+):\s*(.+)$/ -/
def skillCallMatch (cs : Str) : Option (Str × Str) :=
  match stripLit ['[', 's', 'k', 'i', 'l', 'l', ']'] cs with
  | some r => bracketCallTail r
  | none => none

/-- AGENT_CALL_PATTERN = /^\[agent\]\s+(\w+):\s*(.+)$/ -/
def agentCallMatch (cs : Str) : Option (Str × Str) :=
  match stripLit ['[', 'a', 'g', 'e', 'n', 't', ']'] cs with
  | some r => bracketCallTail r
  | none => none

/-- TOOL_CALL_PATTERN = /^\[([A-Z][a-zA-Z]*)\]\s+(.+)$/ (applied to
trimmed lines). -/
def toolCallMatch (cs : Str) : Option (Str × Str) :=
  match cs with
  | c0 :: c :: rest =>
    if !(c0 = '[') then none
    else if c.isUpper then
      let letters := rest.takeWhile Char.isAlpha
      match rest.dropWhile Char.isAlpha with
      | ']' :: r2 =>
        match r2 with
        | w :: r3 =>
          if isWsChar w then
            let content := r3.dropWhile isWsChar
            if content.isEmpty then none else some (c :: letters, content)
          else none
        | [] => none
      | _ => none
    else none
  | _ => none

/-- PLAN_STEP_PATTERN = /^\s*[✓☐]\s+(\d+\.\s*)?(.+)$/ applied to a trimmed
line; returns the description group.  The optional numbering group is
taken greedily when digits, a dot, and a nonempty remainder follow, and
given back (regex backtracking) when taking it would leave (.+) empty. -/
def planStepMatch (cs : Str) : Option Str :=
  match cs with
  | g :: rest =>
    if g = '✓' || g = '☐' then
      match rest with
      | w :: _ =>
        if isWsChar w then
          let r := rest.dropWhile isWsChar
          if r.isEmpty then none
          else
            let ds := r.takeWhile isDigitChar
            if ds.isEmpty then some r
            else
              match r.dropWhile isDigitChar with
              | '.' :: r2 =>
                let content := r2.dropWhile isWsChar
                if content.isEmpty then some r else some content
              | _ => some r
        else none
      | [] => none
    else none
  | [] => none

/-- Does cs start with _result_ followed by at least one word character
(the suffix required after the first group of MCP_RESULT_PATTERN)? -/
def hasResultSuffixAt (cs : Str) : Bool :=
  match cs with
  | '_' :: 'r' :: 'e' :: 's' :: 'u' :: 'l' :: 't' :: '_' :: c :: _ => isWordChar c
  | _ => false

/-- Greedy search for the first capture of
MCP_RESULT_PATTERN = /^(\w+)_result_\w+/ : the longest nonempty word-char
prefix followed by _result_\w (backtracking from the longest \w+ run). -/
def mcpResultNameAux (acc : Str) : Str → Option Str
  | [] => none
  | c :: tl =>
    if isWordChar c then
      match mcpResultNameAux (acc ++ [c]) tl with
      | some r => some r
      | none => if hasResultSuffixAt tl then some (acc ++ [c]) else none
    else none

/-- First capture of MCP_RESULT_PATTERN, when the pattern matches. -/
def mcpResultName (cs : Str) : Option Str := mcpResultNameAux [] cs

/-!  Data model: events, item kinds, the ItemTypeResolver cache. -/

/-- TerminalEventType values produced by OutputParser.parseLine
(user_message and other are declared in the source but never produced by
parseLine). -/
inductive EventType
  | tool_call | skill_call | agent_call | plugin_call | mcp_call | plan_progress
deriving DecidableEq

/-- The four executable-unit kinds tracked by the pipeline. -/
inductive ItemType
  | mcp | plugin | skill | agent
deriving DecidableEq

/-- Origin of a cache entry ('file' | 'builtin' | 'dynamic'). -/
inductive Origin
  | file | builtin | dynamic
deriving DecidableEq

/-- A TerminalEvent together with its details record; the open details
map is flattened into one optional field per key used by the source
(agent/skill/plugin/mcp/tool/name/completed/raw).  The Date timestamp is
not modelled. -/
structure TerminalEvent where
  type : EventType
  content : Str
  agent : Option Str := none
  skill : Option Str := none
  plugin : Option Str := none
  mcp : Option Str := none
  tool : Option Str := none
  name : Option Str := none
  completed : Option Bool := none
  raw : Str := []
deriving DecidableEq

/-- An ItemCacheEntry of ItemTypeResolver (metadata omitted; no claim
inspects it). -/
structure CacheEntry where
  id : Str
  name : Str
  type : ItemType
  origin : Origin
deriving DecidableEq

/-- The resolver's Map<string, ItemCacheEntry>, keyed by namespaced id. -/
abbrev Cache := List (Str × CacheEntry)

/-- The kind__ key prefix used when inserting entries. -/
def kindKeyHead : ItemType → Str
  | .mcp => ['m', 'c', 'p', '_', '_']
  | .plugin => ['p', 'l', 'u', 'g', 'i', 'n', '_', '_']
  | .skill => ['s', 'k', 'i', 'l', 'l', '_', '_']
  | .agent => ['a', 'g', 'e', 'n', 't', '_', '_']

/-- The namespaced cache key, e.g. agent__name. -/
def keyOf (k : ItemType) (name : Str) : Str := kindKeyHead k ++ name

/-- A cache entry as built by updateCacheIfNeeded / updateDynamicMcps. -/
def mkEntry (k : ItemType) (name : Str) (o : Origin) : CacheEntry :=
  { id := keyOf k name, name := name, type := k, origin := o }

/-- Names of cached entries of one kind (getCachedMcps / getCachedPlugins
/ getCachedSkills / getCachedAgents). -/
def cachedNames (cache : Cache) (k : ItemType) : List Str :=
  ((cache.map Prod.snd).filter (fun e => e.type = k)).map CacheEntry.name

/-- ItemTypeResolver.updateDynamicMcps: insert or overwrite dynamic MCP
entries. -/
def updateDynamicMcps (cache : Cache) (mcps : List Str) : Cache :=
  mcps.foldl (fun c n => alSet c (keyOf .mcp n) (mkEntry .mcp n .dynamic)) cache

/-- Result type of ItemTypeResolver.resolveType. -/
inductive ResolvedType
  | mcp | plugin | skill | agent | unknown
deriving DecidableEq

/-- Injection of an item kind into resolveType's result type. -/
def ofItemType : ItemType → ResolvedType
  | .mcp => .mcp
  | .plugin => .plugin
  | .skill => .skill
  | .agent => .agent

/-- The cache entries whose display name matches (resolveType's filter). -/
def entriesFor (cache : Cache) (name : Str) : List CacheEntry :=
  (cache.map Prod.snd).filter (fun e => e.name = name)

/-- ItemTypeResolver.resolveType, modelled on a given cache snapshot (the
TTL-triggered refresh that precedes the lookup in the source is modelled
separately by updateCache): format prefixes first, then the name-filtered
entries — a unique entry yields its type, several yield the
MCP > Plugin > Skill > Agent priority pick, none yields unknown. -/
def resolveType (cache : Cache) (name : Str) : ResolvedType :=
  if listStartsWith ['/'] name then .skill
  else if listStartsWith ['m', 'c', 'p', '-'] name then .mcp
  else
    match entriesFor cache name with
    | [] => .unknown
    | [e] => ofItemType e.type
    | e :: rest =>
      let es := e :: rest
      if es.any (fun x => x.type = ItemType.mcp) then .mcp
      else if es.any (fun x => x.type = ItemType.plugin) then .plugin
      else if es.any (fun x => x.type = ItemType.skill) then .skill
      else if es.any (fun x => x.type = ItemType.agent) then .agent
      else ofItemType e.type

/-!  OutputParser state and parseLine / parse. -/

/-- Mutable state owned by OutputParser: the optional ItemTypeResolver
(whose cache parseLine reads and updates) and the discovered-MCP set
(a JS Set, modelled as an insertion-ordered duplicate-free list). -/
structure ParserState where
  resolver : Option Cache := none
  discoveredMcps : List Str := []
deriving DecidableEq

/-- JS Set.add: append if absent. -/
def setAdd [DecidableEq α] (s : List α) (x : α) : List α :=
  if x ∈ s then s else s ++ [x]

/-- Array.prototype.includes on name lists. -/
def includesStr (l : List Str) (n : Str) : Bool :=
  l.any (fun x => x = n)

/-- The kind chosen for a generic bulleted name in parseLine: the cache
lists are consulted in the fixed priority MCP > Plugin > Skill > Agent,
defaulting to agent on a miss or when no resolver is attached. -/
def classifyGenericKind (resolver : Option Cache) (name : Str) : ItemType :=
  match resolver with
  | none => .agent
  | some cache =>
    if includesStr (cachedNames cache .mcp) name then .mcp
    else if includesStr (cachedNames cache .plugin) name then .plugin
    else if includesStr (cachedNames cache .skill) name then .skill
    else if includesStr (cachedNames cache .agent) name then .agent
    else .agent

/-- The event built by parseLine's generic bulleted-name branch: the
detail key matching the resolved kind carries the item name. -/
def mkGenericEvent (k : ItemType) (name content line : Str) : TerminalEvent :=
  match k with
  | .mcp => { type := .mcp_call, content := content, mcp := some name,
              name := some name, raw := line }
  | .plugin => { type := .plugin_call, content := content, plugin := some name,
                 name := some name, raw := line }
  | .skill => { type := .skill_call, content := content, skill := some name,
                name := some name, raw := line }
  | .agent => { type := .agent_call, content := content, agent := some name,
                name := some name, raw := line }

/-- The stoplist of MCP_RESULT discovery. -/
def mcpStoplist : List Str :=
  [['e', 'r', 'r', 'o', 'r'], ['o', 'u', 't', 'p', 'u', 't'],
   ['r', 'e', 's', 'u', 'l', 't']]

/-- OutputParser.parseLine: the ordered cascade — skill format, mcp
format (feeding dynamic MCP discovery into the resolver), generic
bulleted name resolved through the cache, legacy [skill]/[agent] forms,
bracketed tool call, plan step, and finally the passive MCP-result scan
on otherwise unclassified lines.  Returns the produced event (if any)
and the updated parser state. -/
def parseLine (st : ParserState) (line : Str) : Option TerminalEvent × ParserState :=
  if line.isEmpty then (none, st)
  else
    let t := trimList line
    match skillFormatMatch t with
    | some (nm, d) =>
      (some { type := .skill_call, content := d.getD nm, skill := some nm,
              name := some nm, raw := line }, st)
    | none =>
    match mcpFormatMatch t with
    | some (nm, d) =>
      let content := d.getD (['M', 'C', 'P', ':', ' '] ++ nm)
      let st1 := match st.resolver with
                 | some cache => { st with resolver := some (updateDynamicMcps cache [nm]) }
                 | none => st
      (some { type := .mcp_call, content := content, mcp := some nm,
              name := some nm, raw := line }, st1)
    | none =>
    match agentFormatMatch t with
    | some (nm, d) =>
      (some (mkGenericEvent (classifyGenericKind st.resolver nm) nm (d.getD nm) line), st)
    | none =>
    match skillCallMatch t with
    | some (nm, act) =>
      (some { type := .skill_call, content := act, skill := some nm, raw := line }, st)
    | none =>
    match agentCallMatch t with
    | some (nm, act) =>
      (some { type := .agent_call, content := act, agent := some nm, raw := line }, st)
    | none =>
    match toolCallMatch t with
    | some (nm, act) =>
      (some { type := .tool_call, content := act, tool := some nm, raw := line }, st)
    | none =>
    match planStepMatch t with
    | some desc =>
      (some { type := .plan_progress, content := desc,
              completed := some (t.contains '✓'), raw := line }, st)
    | none =>
    match mcpResultName t with
    | some nm =>
      if 3 < nm.length && !(includesStr mcpStoplist (nm.map Char.toLower)) then
        (none, { st with discoveredMcps := setAdd st.discoveredMcps nm })
      else (none, st)
    | none => (none, st)

/-- OutputParser.parse: ANSI-clean the chunk, split into lines, and run
parseLine on each trimmed line, threading the parser state. -/
def parseChunk (st : ParserState) (output : Str) : List TerminalEvent × ParserState :=
  (splitNl (ansiClean output)).foldl
    (fun acc l =>
      match parseLine acc.2 (trimList l) with
      | (some ev, st1) => (acc.1 ++ [ev], st1)
      | (none, st1) => (acc.1, st1))
    ([], st)

/-!  TerminalListener: deduplication, running-state tracking with
timeouts, the end-signal bulk stop, and the bounded event buffer. -/

/-- DUPLICATE_WINDOW (ms). -/
def DUPLICATE_WINDOW : Nat := 3000

/-- AGENT_TIMEOUT (ms), used for agents, skills, plugins and MCP calls
alike. -/
def AGENT_TIMEOUT : Nat := 10000

/-- start/stop discriminator of an onRunningState notification. -/
inductive SKind
  | start | stop
deriving DecidableEq

/-- One onRunningState callback invocation, with the wall-clock time at
which it happens. -/
structure Notification where
  id : Str
  name : Str
  ty : ItemType
  kind : SKind
  time : Nat
deriving DecidableEq

/-- A scheduled setTimeout: handle, the id and type its callback will
stop, its fire time, and whether clearTimeout was called on it. -/
structure Timer where
  tid : Nat
  id : Str
  ty : ItemType
  fireAt : Nat
  cancelled : Bool
deriving DecidableEq

/-- The dedup key: event type plus the first 100 characters of the
content (the source's template-string key is injective in this pair). -/
abbrev EvKey := EventType × Str

/-- The key of deduplicateEvents. -/
def evKey (ev : TerminalEvent) : EvKey := (ev.type, ev.content.take 100)

/-- TerminalListener state: the event buffer, the dedup record map, the
active-id map, the map from active id to its latest timeout handle, the
scheduled timers with the fresh-handle counter, the logs of
onRunningState and onEvent callbacks, and the owned OutputParser. -/
structure ListenerState where
  eventBuffer : List TerminalEvent := []
  recentEvents : List (EvKey × Nat) := []
  activeIds : List (Str × ItemType) := []
  activeTimeouts : List (Str × Nat) := []
  timers : List Timer := []
  nextTid : Nat := 0
  notifications : List Notification := []
  emittedBatches : List (List TerminalEvent) := []
  pst : ParserState := {}
deriving DecidableEq

/-- TerminalListener.deduplicateEvents at wall-clock time now: drop an
event whose key was seen strictly less than DUPLICATE_WINDOW ago
(without refreshing the record), otherwise record it and let it pass. -/
def deduplicateEvents (now : Nat) (events : List TerminalEvent)
    (recent : List (EvKey × Nat)) : List TerminalEvent × List (EvKey × Nat) :=
  events.foldl
    (fun acc ev =>
      match alLookup acc.2 (evKey ev) with
      | some lastSeen =>
        if now - lastSeen < DUPLICATE_WINDOW then acc
        else (acc.1 ++ [ev], alSet acc.2 (evKey ev) now)
      | none => (acc.1 ++ [ev], alSet acc.2 (evKey ev) now))
    ([], recent)

/-- TerminalListener.cleanupDuplicateRecords: delete records strictly
older than twice the dedup window. -/
def cleanupDuplicateRecords (now : Nat) (recent : List (EvKey × Nat)) :
    List (EvKey × Nat) :=
  recent.filter (fun p => !(DUPLICATE_WINDOW * 2 < now - p.2))

/-- The end-of-execution patterns tested against event content:
Done\s*\(\d+\s*tool uses, Finished, Complete (case-insensitive), and
the result marker ⎿\s*Done.  This matcher checks the first pattern at
one position. -/
def doneToolUsesAt (cs : Str) : Bool :=
  match stripLit ['D', 'o', 'n', 'e'] cs with
  | some r1 =>
    match r1.dropWhile isWsChar with
    | '(' :: r2 =>
      let ds := r2.takeWhile isDigitChar
      if ds.isEmpty then false
      else
        listStartsWith ['t', 'o', 'o', 'l', ' ', 'u', 's', 'e', 's']
          ((r2.dropWhile isDigitChar).dropWhile isWsChar)
    | _ => false
  | none => false

/-- Position matcher for ⎿\s*Done. -/
def lsDoneAt (cs : Str) : Bool :=
  match cs with
  | '⎿' :: r => listStartsWith ['D', 'o', 'n', 'e'] (r.dropWhile isWsChar)
  | _ => false

/-- The end-signal test of TerminalListener.handleTerminalData (and of
RunningStateManager.checkEndSignal, which lists the same patterns). -/
def checkEndSignal (content : Str) : Bool :=
  existsPos doneToolUsesAt content
    || containsSub ['F', 'i', 'n', 'i', 's', 'h', 'e', 'd'] content
    || containsSubCI ['C', 'o', 'm', 'p', 'l', 'e', 't', 'e'] content
    || existsPos lsDoneAt content

/-- Set a timer's cancelled flag (clearTimeout on a stored handle). -/
def cancelTid (timers : List Timer) (tid : Nat) : List Timer :=
  timers.map (fun tm => if tm.tid = tid then { tm with cancelled := true } else tm)

/-- The start block run for a classified agent/skill/plugin/mcp call:
record the id as active, arm a fresh AGENT_TIMEOUT timeout and store its
handle (the previous handle, if any, is overwritten in the map without
being cleared — exactly as in the source), then notify start. -/
def startItem (t : Nat) (id : Str) (ty : ItemType) (content : Str)
    (s : ListenerState) : ListenerState :=
  { s with
    activeIds := alSet s.activeIds id ty
    timers := s.timers ++ [{ tid := s.nextTid, id := id, ty := ty,
                             fireAt := t + AGENT_TIMEOUT, cancelled := false }]
    activeTimeouts := alSet s.activeTimeouts id s.nextTid
    nextTid := s.nextTid + 1
    notifications := s.notifications ++ [{ id := id, name := content, ty := ty,
                                           kind := .start, time := t }] }

/-- One iteration of the end-signal loop body, for one active entry:
clear the stored timeout handle (when one is stored), drop the id from
the timeout map, and notify stop. -/
def stopStep (t : Nat) (acc : ListenerState) (p : Str × ItemType) : ListenerState :=
  let acc1 :=
    match alLookup acc.activeTimeouts p.1 with
    | some tid => { acc with timers := cancelTid acc.timers tid }
    | none => acc
  { acc1 with
    activeTimeouts := alDelete acc1.activeTimeouts p.1
    notifications := acc1.notifications ++ [{ id := p.1, name := [], ty := p.2,
                                              kind := .stop, time := t }] }

/-- The end-signal block: run stopStep for every currently active id,
then clear the active set. -/
def stopAll (t : Nat) (s : ListenerState) : ListenerState :=
  let s1 := s.activeIds.foldl (stopStep t) s
  { s1 with activeIds := [] }

/-- The four start checks of handleTerminalData's loop (agent, skill,
plugin, mcp — an event matches at most one). -/
def startPhase (t : Nat) (s : ListenerState) (ev : TerminalEvent) : ListenerState :=
  let s1 :=
    if ev.type = .agent_call then
      match ev.agent with
      | some id => startItem t id .agent ev.content s
      | none => s
    else s
  let s2 :=
    if ev.type = .skill_call then
      match ev.skill with
      | some id => startItem t id .skill ev.content s1
      | none => s1
    else s1
  let s3 :=
    if ev.type = .plugin_call then
      match ev.plugin with
      | some id => startItem t id .plugin ev.content s2
      | none => s2
    else s2
  if ev.type = .mcp_call then
    match ev.mcp with
    | some id => startItem t id .mcp ev.content s3
    | none => s3
  else s3

/-- The per-event body of handleTerminalData's loop: the start checks,
the end-signal check on the event content (run only when the content is
truthy and some id is active), then the buffer append. -/
def processEvent (t : Nat) (s : ListenerState) (ev : TerminalEvent) : ListenerState :=
  let s4 := startPhase t s ev
  let s5 :=
    if !ev.content.isEmpty && checkEndSignal ev.content && 0 < s4.activeIds.length
    then stopAll t s4 else s4
  { s5 with eventBuffer := s5.eventBuffer ++ [ev] }

/-- The quick first-layer content filter of handleTerminalData. -/
def quickPatterns : List Str :=
  [['[', 'B', 'a', 's', 'h', ']'], ['[', 'R', 'e', 'a', 'd', ']'],
   ['[', 'W', 'r', 'i', 't', 'e', ']'], ['[', 'S', 'k', 'i', 'l', 'l', ']'],
   ['[', 'A', 'g', 'e', 'n', 't', ']'], ['[', 's', 'k', 'i', 'l', 'l', ']'],
   ['[', 'a', 'g', 'e', 'n', 't', ']'], ['[', 'P', 'l', 'a', 'n', ']'], ['●']]

/-- Does the raw chunk contain any of the Claude Code marker substrings? -/
def hasRelevantContent (data : Str) : Bool :=
  quickPatterns.any (fun p => containsSub p data)

/-- The user-input filter: trimmed chunk starts with the two characters
greater-than space, or matches the regex of a greater-than followed by
any whitespace character. -/
def isUserInputStart (trimmed : Str) : Bool :=
  listStartsWith ['>', ' '] trimmed
    || (match trimmed with
        | '>' :: c :: _ => isWsChar c
        | _ => false)

/-- The buffer bound: after appending a batch, a buffer longer than 1000
is bulk-trimmed to its last 500 entries (Array.prototype.slice(-500)). -/
def trimBuffer (buf : List TerminalEvent) : List TerminalEvent :=
  if 1000 < buf.length then buf.drop (buf.length - 500) else buf

/-- One insertion into the event history followed by the bound check, as
performed by a chunk carrying a single event. -/
def historyAppend (buf : List TerminalEvent) (ev : TerminalEvent) :
    List TerminalEvent :=
  trimBuffer (buf ++ [ev])

/-- TerminalListener.handleTerminalData at wall-clock time t: quick
relevance filter, user-input filter, parse (persisting parser-state
mutations), early return on zero parsed events, dedup, the per-event
loop, the batched onEvent callback, the buffer bound, and the dedup
record cleanup. -/
def handleTerminalData (t : Nat) (data : Str) (s : ListenerState) : ListenerState :=
  if !hasRelevantContent data then s
  else if isUserInputStart (trimList data) then s
  else
    let pr := parseChunk s.pst data
    let s1 := { s with pst := pr.2 }
    if pr.1.isEmpty then s1
    else
      let dd := deduplicateEvents t pr.1 s1.recentEvents
      let s2 := { s1 with recentEvents := dd.2 }
      let s3 := dd.1.foldl (processEvent t) s2
      let s4 := if dd.1.isEmpty then s3
                else { s3 with emittedBatches := s3.emittedBatches ++ [dd.1] }
      let s5 := { s4 with eventBuffer := trimBuffer s4.eventBuffer }
      { s5 with recentEvents := cleanupDuplicateRecords t s5.recentEvents }

/-- TerminalListener.getEvents: a snapshot of the buffer (the source
returns a fresh array copy; copying is identity on immutable lists). -/
def getEvents (s : ListenerState) : List TerminalEvent := s.eventBuffer

/-- TerminalListener.clearEvents. -/
def clearEvents (s : ListenerState) : ListenerState := { s with eventBuffer := [] }

/-- The earliest pending (non-cancelled) timer; ties go to the earlier
handle, i.e. creation order, as on the JS event loop. -/
def nextTimer (timers : List Timer) : Option Timer :=
  timers.foldl
    (fun acc tm =>
      if tm.cancelled then acc
      else
        match acc with
        | none => some tm
        | some best => if tm.fireAt < best.fireAt then some tm else acc)
    none

/-- Fire the earliest pending timeout: its callback notifies stop for
its id and deletes the id from the active and timeout maps (exactly the
setTimeout callback of the source). -/
def fireNext (s : ListenerState) : ListenerState :=
  match nextTimer s.timers with
  | none => s
  | some tm =>
    { s with
      timers := s.timers.filter (fun x => !(x.tid = tm.tid))
      notifications := s.notifications ++ [{ id := tm.id, name := [], ty := tm.ty,
                                             kind := .stop, time := tm.fireAt }]
      activeIds := alDelete s.activeIds tm.id
      activeTimeouts := alDelete s.activeTimeouts tm.id }

/-- Fire pending timeouts repeatedly (fuel-indexed). -/
def runTimers : Nat → ListenerState → ListenerState
  | 0, s => s
  | n + 1, s => runTimers n (fireNext s)

/-- Let every pending timeout fire, in fire-time order. -/
def runAllTimers (s : ListenerState) : ListenerState := runTimers s.timers.length s

/-- The stop notifications in a listener's log. -/
def stopsOf (s : ListenerState) : List Notification :=
  s.notifications.filter (fun n => decide (n.kind = SKind.stop))

/-!  ItemTypeResolver.updateCacheIfNeeded: the cache rebuild.  Each of
the four external sources is fetched inside its own try/catch, a failure
being logged and skipped; a source's result is modelled as an Except
value.  Only the display names matter to the cache semantics, so a
source result is a list of names. -/

/-- Fold one source's fetched names into the cache under file origin. -/
def srcFold (k : ItemType) (names : List Str) (c : Cache) : Cache :=
  names.foldl (fun acc n => alSet acc (keyOf k n) (mkEntry k n .file)) c

/-- One try/catch block of the rebuild: on success fold the fetched
names into the cache, on error leave the cache as it is (the error is
logged and swallowed, never re-thrown). -/
def tryFold (k : ItemType) (r : Except Unit (List Str)) (c : Cache) : Cache :=
  match r with
  | .ok l => srcFold k l c
  | .error _ => c

/-- The rebuild body of updateCacheIfNeeded: clear, then MCP (only when
an MCP callback was supplied), plugins, skills, agents, in that order,
each source isolated in its own try/catch. -/
def updateCache (hasMcpCb : Bool) (rm rp rs ra : Except Unit (List Str)) : Cache :=
  tryFold .agent ra
    (tryFold .skill rs
      (tryFold .plugin rp
        (if hasMcpCb then tryFold .mcp rm [] else [])))

/-- The entries one source contributes on its own. -/
def srcEntries (k : ItemType) (r : Except Unit (List Str)) : Cache :=
  tryFold k r []

/-- The kinds under which a name is cached, listed in the fixed
tie-break priority order MCP > Plugin > Skill > Agent; hence its head,
when it exists, is the highest-priority matching kind, and a singleton
means the name is cached under exactly one kind. -/
def kindsWith (cache : Cache) (name : Str) : List ItemType :=
  [ItemType.mcp, ItemType.plugin, ItemType.skill, ItemType.agent].filter
    (fun k => includesStr (cachedNames cache k) name)

/-!  Concrete scenario material used by the closed theorems. -/

/-- A listener as constructed (no resolver attached, everything empty). -/
def initListener : ListenerState := {}

/-- A sample event for exercising the history bound. -/
def sampleEvent : TerminalEvent :=
  { type := .tool_call, content := ['e'] }

/-- n single-event insertions into an initially empty history, each
followed by the bound check, as performed by n one-event chunks. -/
def insertN : Nat → List TerminalEvent
  | 0 => []
  | n + 1 => historyAppend (insertN n) sampleEvent

/-- The listener after 1001 single-event insertions. -/
def listener1001 : ListenerState := { eventBuffer := insertN 1001 }

/-- The chunk of the skill end-to-end example. -/
def chunkCommit : Str := "● /commit(Create a git commit)\n".toList

/-- A chunk starting an agent named alpha. -/
def chunkAlpha : Str := "● alpha".toList

/-- A chunk starting a skill named beta. -/
def chunkBeta : Str := "● /beta(run)".toList

/-- A raw end-of-execution line, with no bullet or bracket marker. -/
def chunkDone : Str := "⎿ Done (3 tool uses)".toList

/-- A chunk whose classified event content carries an end phrase. -/
def chunkFinished : Str := "[Bash] Finished compile".toList

/-- Listener after starting agent alpha at time 0. -/
def sAlpha : ListenerState := handleTerminalData 0 chunkAlpha initListener

/-- Listener after additionally starting skill beta at time 100. -/
def sAlphaBeta : ListenerState := handleTerminalData 100 chunkBeta sAlpha

/-- A chunk starting an agent named X (used by the timeout scenarios). -/
def chunkX : Str := "● X".toList

/-- The name X as a list. -/
def xStr : Str := ['X']

/-- The classified event of chunkX. -/
def evX : TerminalEvent :=
  { type := .agent_call, content := xStr, agent := some xStr,
    name := some xStr, raw := '●' :: ' ' :: xStr }

/-- The dedup key of evX. -/
def keyX : EvKey := (.agent_call, xStr)

/-- The listener state after processing chunkX once at time t0. -/
def xState1 (t0 : Nat) : ListenerState :=
  { eventBuffer := [evX]
    recentEvents := [(keyX, t0)]
    activeIds := [(xStr, .agent)]
    activeTimeouts := [(xStr, 0)]
    timers := [{ tid := 0, id := xStr, ty := .agent,
                 fireAt := t0 + AGENT_TIMEOUT, cancelled := false }]
    nextTid := 1
    notifications := [{ id := xStr, name := xStr, ty := .agent,
                        kind := .start, time := t0 }]
    emittedBatches := [[evX]]
    pst := {} }

/-- The listener state after processing chunkX again at time t1 (both
timeouts pending: the first one was never cleared). -/
def xState2 (t0 t1 : Nat) : ListenerState :=
  { eventBuffer := [evX, evX]
    recentEvents := [(keyX, t1)]
    activeIds := [(xStr, .agent)]
    activeTimeouts := [(xStr, 1)]
    timers := [{ tid := 0, id := xStr, ty := .agent,
                 fireAt := t0 + AGENT_TIMEOUT, cancelled := false },
               { tid := 1, id := xStr, ty := .agent,
                 fireAt := t1 + AGENT_TIMEOUT, cancelled := false }]
    nextTid := 2
    notifications := [{ id := xStr, name := xStr, ty := .agent,
                        kind := .start, time := t0 },
                      { id := xStr, name := xStr, ty := .agent,
                        kind := .start, time := t1 }]
    emittedBatches := [[evX], [evX]]
    pst := {} }

/-- A cache holding one name under two kinds (plugin and skill), used to
exercise the tie-break. -/
def dupCache : Cache :=
  [(keyOf .plugin "dup".toList, mkEntry .plugin "dup".toList .file),
   (keyOf .skill "dup".toList, mkEntry .skill "dup".toList .file)]

/-- The duplicated display name. -/
def dupName : Str := "dup".toList

theorem alLookup_alSet_self [DecidableEq α] (m : List (α × β)) (k : α) (v : β) :
    alLookup (alSet m k v) k = some v := by
  induction m with
  | nil => simp [alSet, alLookup]
  | cons p tl ih =>
    by_cases h : p.1 = k <;> simp [alSet, alLookup, h, ih]

/-- C9: a raw chunk containing none of the quick-filter marker substrings,
or whose trimmed text begins with the user-input prefix, is a complete
no-op for handleTerminalData: the listener state (event history, dedup
map, active ids, timeouts, timers, discovered MCPs) is returned
unchanged, even when the chunk contains an end-signal or discovery line. -/
theorem irrelevant_chunk_noop (t : Nat) (data : Str) (s : ListenerState)
    (h : hasRelevantContent data = false ∨ isUserInputStart (trimList data) = true) :
    handleTerminalData t data s = s := by
  rcases h with h | h
  · simp [handleTerminalData, h]
  · by_cases h2 : hasRelevantContent data <;> simp [handleTerminalData, h, h2]

/-- C9 witness: the chunk carrying only the raw end line is processed as
a no-op on a state with two active ids. -/
theorem irrelevant_chunk_noop_w :
    hasRelevantContent chunkDone = false ∧
    sAlphaBeta.activeIds ≠ [] ∧
    handleTerminalData 200 chunkDone sAlphaBeta = sAlphaBeta :=
  ⟨by decide, by decide, irrelevant_chunk_noop 200 chunkDone sAlphaBeta (Or.inl (by decide))⟩

/-- C10: clearEvents empties only the event history — getEvents returns
the empty list afterwards — while the dedup records, active ids, armed
timeouts, timers and discovered-MCP set are unchanged, and a recently
seen line is still suppressed within its window. -/
theorem clearEvents_frame (s : ListenerState) (ev : TerminalEvent) (t ts : Nat)
    (hseen : alLookup s.recentEvents (evKey ev) = some ts)
    (hwin : t - ts < DUPLICATE_WINDOW) :
    getEvents (clearEvents s) = [] ∧
    (clearEvents s).recentEvents = s.recentEvents ∧
    (clearEvents s).activeIds = s.activeIds ∧
    (clearEvents s).activeTimeouts = s.activeTimeouts ∧
    (clearEvents s).timers = s.timers ∧
    (clearEvents s).pst.discoveredMcps = s.pst.discoveredMcps ∧
    (deduplicateEvents t [ev] (clearEvents s).recentEvents).1 = [] := by
  refine ⟨rfl, rfl, rfl, rfl, rfl, rfl, ?_⟩
  simp [deduplicateEvents, clearEvents, hseen, hwin]



/-- C10 witness: clearing the one-start state keeps its dedup record, so
the same event is still suppressed afterwards. -/
theorem clearEvents_frame_w :
    alLookup (xState1 0).recentEvents (evKey evX) = some 0 ∧
    (1000 : Nat) - 0 < DUPLICATE_WINDOW ∧
    getEvents (clearEvents (xState1 0)) = [] ∧
    (deduplicateEvents 1000 [evX] (clearEvents (xState1 0)).recentEvents).1 = [] :=
  ⟨by decide, by decide,
    (clearEvents_frame (xState1 0) evX 1000 0 (by decide) (by decide)).1,
    (clearEvents_frame (xState1 0) evX 1000 0 (by decide) (by decide)).2.2.2.2.2.2⟩

/-- Up to the 1000-entry capacity, single-event insertions grow the
history by exactly one entry each. -/
theorem insertN_length_of_le (n : Nat) (h : n ≤ 1000) : (insertN n).length = n := by
  induction n with
  | zero => rfl
  | succ m ih =>
    have hm : m ≤ 1000 := by omega
    have hL : (insertN m).length = m := ih hm
    show (trimBuffer (insertN m ++ [sampleEvent])).length = m + 1
    unfold trimBuffer
    rw [if_neg]
    · rw [List.length_append, hL, List.length_singleton]
    · rw [List.length_append, hL, List.length_singleton]
      omega

/-- C5: inserting 1001 events one at a time leaves exactly 500 events in
the buffer — on exceeding the 1000-entry hard capacity the 1001-entry
buffer is trimmed to its last 500 entries in one bulk drop of the oldest
501 — and getEvents returns exactly the buffer contents (the source
returns a fresh copy; on immutable lists the snapshot is the buffer
value itself). -/
theorem history_bound :
    (insertN 1001).length = 500 ∧
    insertN 1001 = (insertN 1000 ++ [sampleEvent]).drop 501 ∧
    (∀ s : ListenerState, getEvents s = s.eventBuffer) := by
  have h1000 : (insertN 1000).length = 1000 := insertN_length_of_le 1000 (by omega)
  have hstep : insertN 1001 = (insertN 1000 ++ [sampleEvent]).drop 501 := by
    show trimBuffer (insertN 1000 ++ [sampleEvent]) = _
    unfold trimBuffer
    rw [if_pos]
    · rw [List.length_append, h1000, List.length_singleton]
    · rw [List.length_append, h1000, List.length_singleton]
      omega
  have hlen : (insertN 1001).length = 500 := by
    rw [hstep, List.length_drop, List.length_append, h1000, List.length_singleton]
  exact ⟨hlen, hstep, fun s => rfl⟩

/-- C4: an event whose (kind, content-prefix) key is fresh passes and is
recorded; resubmitting the identical event strictly within the 3000 ms
window yields no second emission and does not refresh the record;
resubmitting once the window has elapsed emits again; and cleanup keeps
exactly the records at most twice the window old. -/
theorem dedup_window_spec (ev : TerminalEvent) (t1 t2 tc : Nat)
    (r0 : List (EvKey × Nat))
    (h0 : alLookup r0 (evKey ev) = none) :
    (deduplicateEvents t1 [ev] r0).1 = [ev] ∧
    (t2 - t1 < DUPLICATE_WINDOW →
      (deduplicateEvents t2 [ev] (deduplicateEvents t1 [ev] r0).2).1 = [] ∧
      (deduplicateEvents t2 [ev] (deduplicateEvents t1 [ev] r0).2).2 =
        (deduplicateEvents t1 [ev] r0).2) ∧
    (DUPLICATE_WINDOW ≤ t2 - t1 →
      (deduplicateEvents t2 [ev] (deduplicateEvents t1 [ev] r0).2).1 = [ev]) ∧
    (∀ k ts, (k, ts) ∈ cleanupDuplicateRecords tc r0 ↔
      ((k, ts) ∈ r0 ∧ tc - ts ≤ DUPLICATE_WINDOW * 2)) := by
  have hd1 : deduplicateEvents t1 [ev] r0 = ([ev], alSet r0 (evKey ev) t1) := by
    simp [deduplicateEvents, h0]
  have hl : alLookup (alSet r0 (evKey ev) t1) (evKey ev) = some t1 :=
    alLookup_alSet_self r0 (evKey ev) t1
  refine ⟨by rw [hd1], ?_, ?_, ?_⟩
  · intro hin
    rw [hd1]
    simp [deduplicateEvents, hl, hin]
  · intro hout
    rw [hd1]
    simp [deduplicateEvents, hl, Nat.not_lt.mpr hout]
  · intro k ts
    simp [cleanupDuplicateRecords, List.mem_filter, Nat.not_lt]

/-- C4 witness: a fresh event passes at time 0 and its resubmission at
time 1000 is suppressed. -/
theorem dedup_window_spec_w :
    alLookup ([] : List (EvKey × Nat)) (evKey evX) = none ∧
    (deduplicateEvents 0 [evX] []).1 = [evX] ∧
    ((1000 : Nat) - 0 < DUPLICATE_WINDOW) ∧
    (deduplicateEvents 1000 [evX] (deduplicateEvents 0 [evX] []).2).1 = [] :=
  ⟨by decide, (dedup_window_spec evX 0 1000 0 [] (by decide)).1, by decide,
   ((dedup_window_spec evX 0 1000 0 [] (by decide)).2.1 (by decide)).1⟩

theorem skillFormatMatch_none_of_head (c : Char) (l : Str) (h : ¬ c = '●') :
    skillFormatMatch (c :: l) = none := by
  simp [skillFormatMatch, h]

theorem mcpFormatMatch_none_of_head (c : Char) (l : Str) (h : ¬ c = '●') :
    mcpFormatMatch (c :: l) = none := by
  simp [mcpFormatMatch, h]

theorem agentFormatMatch_none_of_head (c : Char) (l : Str) (h : ¬ c = '●') :
    agentFormatMatch (c :: l) = none := by
  simp [agentFormatMatch, h]

theorem skillCallMatch_none_of_head (c : Char) (l : Str) (h : ¬ c = '[') :
    skillCallMatch (c :: l) = none := by
  have h2 : ¬ ('[' = c) := fun hh => h hh.symm
  simp [skillCallMatch, stripLit, h2]

theorem agentCallMatch_none_of_head (c : Char) (l : Str) (h : ¬ c = '[') :
    agentCallMatch (c :: l) = none := by
  have h2 : ¬ ('[' = c) := fun hh => h hh.symm
  simp [agentCallMatch, stripLit, h2]

theorem toolCallMatch_none_of_head (c : Char) (l : Str) (h : ¬ c = '[') :
    toolCallMatch (c :: l) = none := by
  cases l with
  | nil => rfl
  | cons c2 l2 => simp [toolCallMatch, h]

/-- C7: every line matching the bulleted slash-name shape is classified
as a skill-call regardless of registry contents and ahead of every other
rule (the skill format is the first cascade level, and the produced
event does not depend on the parser's resolver state); in particular the
example chunk yields a skill-call with content Create a git commit and
details.skill commit, and the listener marks commit active with kind
skill and notifies its start. -/
theorem skill_format_precedence :
    (∀ (st : ParserState) (line nm : Str) (d : Option Str),
        skillFormatMatch (trimList line) = some (nm, d) →
        parseLine st line =
          (some { type := .skill_call, content := d.getD nm, skill := some nm,
                  name := some nm, raw := line }, st)) ∧
    (parseChunk {} chunkCommit).1 =
      [{ type := .skill_call, content := "Create a git commit".toList,
         skill := some "commit".toList, name := some "commit".toList,
         raw := "● /commit(Create a git commit)".toList }] ∧
    (handleTerminalData 0 chunkCommit initListener).activeIds =
      [("commit".toList, ItemType.skill)] ∧
    (handleTerminalData 0 chunkCommit initListener).notifications =
      [{ id := "commit".toList, name := "Create a git commit".toList,
         ty := .skill, kind := .start, time := 0 }] := by
  refine ⟨?_, by decide, by decide, by decide⟩
  intro st line nm d h
  have hline : line.isEmpty = false := by
    cases line with
    | nil => rw [show trimList [] = [] from rfl] at h; cases h
    | cons a l => rfl
  simp [parseLine, hline, h]

/-- C7 witness: the general slash-format clause applied to a concrete
slash line. -/
theorem skill_format_precedence_w :
    skillFormatMatch (trimList "● /mygo(run tests)".toList) =
      some ("mygo".toList, some "run tests".toList) ∧
    parseLine {} "● /mygo(run tests)".toList =
      (some { type := .skill_call, content := "run tests".toList,
              skill := some "mygo".toList, name := some "mygo".toList,
              raw := "● /mygo(run tests)".toList }, {}) :=
  ⟨by decide,
   skill_format_precedence.1 {} "● /mygo(run tests)".toList "mygo".toList
     (some "run tests".toList) (by decide)⟩

/-- C3 counterexample: a plan line whose leading checkbox glyph is the
unchecked one but whose description contains a check mark is classified
with completed = true, contradicting the claim that the flag follows the
leading glyph independently of the description characters. -/
theorem plan_checkbox_cex :
    (trimList "☐ fix ✓ later".toList).head? = some '☐' ∧
    (parseLine {} "☐ fix ✓ later".toList).1 =
      some { type := .plan_progress, content := "fix ✓ later".toList,
             completed := some true, raw := "☐ fix ✓ later".toList } := by
  constructor
  · decide
  · decide

/-- C3 amended: for every trimmed line matching the plan-step shape, the
classifier emits a plan-progress event whose completed flag is true
exactly when the checked-box character appears anywhere in the trimmed line — the
leading glyph decides only when the description contains no check
mark. -/
theorem plan_checkbox_amended (st : ParserState) (line desc : Str)
    (h : planStepMatch (trimList line) = some desc) :
    parseLine st line =
      (some { type := .plan_progress, content := desc,
              completed := some ((trimList line).contains '✓'),
              raw := line }, st) := by
  obtain ⟨g, rest, ht, hg⟩ :
      ∃ g rest, trimList line = g :: rest ∧ (g = '✓' ∨ g = '☐') := by
    cases hT : trimList line with
    | nil => rw [hT] at h; cases h
    | cons g rest =>
      rw [hT] at h
      by_cases hgg : (g = '✓' || g = '☐')
      · exact ⟨g, rest, rfl, by simpa using hgg⟩
      · simp [planStepMatch, hgg] at h
  have hline : line.isEmpty = false := by
    cases line with
    | nil => rw [show trimList [] = [] from rfl] at ht; cases ht
    | cons a l => rfl
  have hne1 : ¬ g = '●' := by rcases hg with hg | hg <;> simp [hg]
  have hne2 : ¬ g = '[' := by rcases hg with hg | hg <;> simp [hg]
  have h1 : skillFormatMatch (trimList line) = none := by
    rw [ht]; exact skillFormatMatch_none_of_head g rest hne1
  have h2 : mcpFormatMatch (trimList line) = none := by
    rw [ht]; exact mcpFormatMatch_none_of_head g rest hne1
  have h3 : agentFormatMatch (trimList line) = none := by
    rw [ht]; exact agentFormatMatch_none_of_head g rest hne1
  have h4 : skillCallMatch (trimList line) = none := by
    rw [ht]; exact skillCallMatch_none_of_head g rest hne2
  have h5 : agentCallMatch (trimList line) = none := by
    rw [ht]; exact agentCallMatch_none_of_head g rest hne2
  have h6 : toolCallMatch (trimList line) = none := by
    rw [ht]; exact toolCallMatch_none_of_head g rest hne2
  simp [parseLine, hline, h1, h2, h3, h4, h5, h6, h]

/-- C3 witness: a checked numbered step is emitted as completed
plan-progress. -/
theorem plan_checkbox_amended_w :
    planStepMatch (trimList "✓ 2. polish the docs".toList) =
      some "polish the docs".toList ∧
    parseLine {} "✓ 2. polish the docs".toList =
      (some { type := .plan_progress, content := "polish the docs".toList,
              completed := some ((trimList "✓ 2. polish the docs".toList).contains '✓'),
              raw := "✓ 2. polish the docs".toList }, {}) :=
  ⟨by decide,
   plan_checkbox_amended {} "✓ 2. polish the docs".toList
     "polish the docs".toList (by decide)⟩

theorem includesStr_cachedNames_iff (cache : Cache) (k : ItemType) (name : Str) :
    includesStr (cachedNames cache k) name = true ↔
      ∃ e ∈ entriesFor cache name, e.type = k := by
  simp only [includesStr, cachedNames, entriesFor, List.any_eq_true, List.mem_map,
    List.mem_filter, decide_eq_true_eq]
  constructor
  · rintro ⟨x, ⟨e, ⟨he, hk⟩, hnm⟩, hx⟩
    exact ⟨e, ⟨he, by rw [hnm, hx]⟩, hk⟩
  · rintro ⟨e, ⟨he, hnm⟩, hk⟩
    exact ⟨e.name, ⟨e, ⟨he, hk⟩, rfl⟩, hnm⟩

theorem includesStr_cachedNames_any (cache : Cache) (k : ItemType) (name : Str) :
    includesStr (cachedNames cache k) name =
      (entriesFor cache name).any (fun e => decide (e.type = k)) := by
  rw [Bool.eq_iff_iff]
  rw [includesStr_cachedNames_iff]
  simp [List.any_eq_true]

theorem classify_eq_kindsWith_head (cache : Cache) (name : Str) :
    classifyGenericKind (some cache) name =
      (match kindsWith cache name with
       | [] => ItemType.agent
       | k :: _ => k) := by
  by_cases h1 : includesStr (cachedNames cache ItemType.mcp) name <;>
  by_cases h2 : includesStr (cachedNames cache ItemType.plugin) name <;>
  by_cases h3 : includesStr (cachedNames cache ItemType.skill) name <;>
  by_cases h4 : includesStr (cachedNames cache ItemType.agent) name <;>
  simp [classifyGenericKind, kindsWith, h1, h2, h3, h4]

theorem resolveType_eq_kindsWith_head (cache : Cache) (name : Str)
    (hp1 : listStartsWith ['/'] name = false)
    (hp2 : listStartsWith ['m', 'c', 'p', '-'] name = false) :
    resolveType cache name =
      (match kindsWith cache name with
       | [] => ResolvedType.unknown
       | k :: _ => ofItemType k) := by
  have hb : ∀ k : ItemType, includesStr (cachedNames cache k) name =
      (entriesFor cache name).any (fun e => decide (e.type = k)) :=
    fun k => includesStr_cachedNames_any cache k name
  rcases hE : entriesFor cache name with _ | ⟨e, _ | ⟨e2, rest⟩⟩
  · have hk : ∀ k : ItemType, includesStr (cachedNames cache k) name = false := by
      intro k; rw [hb k, hE]; rfl
    simp [resolveType, hp1, hp2, hE, kindsWith, hk]
  · have hk : ∀ k : ItemType, includesStr (cachedNames cache k) name =
        decide (e.type = k) := by
      intro k; rw [hb k, hE]; simp
    cases he : e.type <;>
      simp [resolveType, hp1, hp2, hE, kindsWith, hk, he, ofItemType]
  · have hk : ∀ k : ItemType, includesStr (cachedNames cache k) name =
        ((e :: e2 :: rest).any (fun x => decide (x.type = k))) := by
      intro k; rw [hb k, hE]
    have hfour : ((e :: e2 :: rest).any fun x => decide (x.type = ItemType.mcp)) = true ∨
        ((e :: e2 :: rest).any fun x => decide (x.type = ItemType.plugin)) = true ∨
        ((e :: e2 :: rest).any fun x => decide (x.type = ItemType.skill)) = true ∨
        ((e :: e2 :: rest).any fun x => decide (x.type = ItemType.agent)) = true := by
      cases he : e.type
      case mcp => exact Or.inl (by simp [he])
      case plugin => exact Or.inr (Or.inl (by simp [he]))
      case skill => exact Or.inr (Or.inr (Or.inl (by simp [he])))
      case agent => exact Or.inr (Or.inr (Or.inr (by simp [he])))
    simp only [resolveType, hp1, hp2, hE, kindsWith, hk]
    simp only [List.filter_cons, List.filter_nil]
    cases hg1 : ((e :: e2 :: rest).any fun x => decide (x.type = ItemType.mcp)) <;>
    cases hg2 : ((e :: e2 :: rest).any fun x => decide (x.type = ItemType.plugin)) <;>
    cases hg3 : ((e :: e2 :: rest).any fun x => decide (x.type = ItemType.skill)) <;>
    cases hg4 : ((e :: e2 :: rest).any fun x => decide (x.type = ItemType.agent)) <;>
      first
        | (simp [ofItemType]
           done)
        | (exfalso
           rcases hfour with h | h | h | h <;> simp_all)

/-- C6: for a generic bulleted bare identifier (no slash or mcp prefix),
classification resolves the identifier against the registry: cached
under exactly one kind the event takes that kind, under several kinds
the head of the priority order MCP > Plugin > Skill > Agent decides, and
under none the event defaults to agent-call; correspondingly resolveType
returns the unique matching kind, else the highest-priority matching
kind, else unknown. -/
theorem generic_name_resolution (cache : Cache) (name : Str)
    (hp1 : listStartsWith ['/'] name = false)
    (hp2 : listStartsWith ['m', 'c', 'p', '-'] name = false) :
    (kindsWith cache name = [] →
      classifyGenericKind (some cache) name = .agent ∧
      resolveType cache name = .unknown) ∧
    (∀ k l, kindsWith cache name = k :: l →
      classifyGenericKind (some cache) name = k ∧
      resolveType cache name = ofItemType k) := by
  have hc := classify_eq_kindsWith_head cache name
  have hr := resolveType_eq_kindsWith_head cache name hp1 hp2
  constructor
  · intro h0
    rw [h0] at hc hr
    exact ⟨hc, hr⟩
  · intro k l h0
    rw [h0] at hc hr
    exact ⟨hc, hr⟩

theorem mem_alSet [DecidableEq α] (m : List (α × β)) (k : α) (v : β)
    (p : α × β) (h : p ∈ alSet m k v) : p ∈ m ∨ p = (k, v) := by
  induction m with
  | nil => simpa [alSet] using h
  | cons q tl ih =>
    by_cases hq : q.1 = k
    · simp only [alSet, if_pos hq] at h
      rcases List.mem_cons.mp h with h | h
      · right; rw [h]
      · left; exact List.mem_cons_of_mem q h
    · simp only [alSet, if_neg hq] at h
      rcases List.mem_cons.mp h with h | h
      · left; rw [h]; exact List.mem_cons_self q tl
      · rcases ih h with h | h
        · left; exact List.mem_cons_of_mem q h
        · right; exact h

theorem alSet_append_left [DecidableEq α] (b1 b2 : List (α × β)) (k : α) (v : β)
    (hb : ∀ p ∈ b1, ¬ p.1 = k) :
    alSet (b1 ++ b2) k v = b1 ++ alSet b2 k v := by
  induction b1 with
  | nil => rfl
  | cons q tl ih =>
    have hq : ¬ q.1 = k := hb q (List.mem_cons_self q tl)
    simp only [List.cons_append, alSet, if_neg hq]
    exact congrArg (List.cons q) (ih (fun p hp => hb p (List.mem_cons_of_mem q hp)))

theorem keyOf_ne_of_kind_ne (k1 k2 : ItemType) (h : ¬ k1 = k2) (n m : Str) :
    ¬ keyOf k1 n = keyOf k2 m := by
  cases k1 <;> cases k2 <;> simp_all [keyOf, kindKeyHead]

theorem srcFold_split (k : ItemType) (names : List Str) (b1 b2 : Cache)
    (hb : ∀ p ∈ b1, ∀ n, ¬ p.1 = keyOf k n) :
    srcFold k names (b1 ++ b2) = b1 ++ srcFold k names b2 := by
  induction names generalizing b2 with
  | nil => rfl
  | cons n ns ih =>
    show srcFold k ns (alSet (b1 ++ b2) (keyOf k n) (mkEntry k n .file)) = _
    rw [alSet_append_left b1 b2 (keyOf k n) (mkEntry k n .file)
      (fun p hp => hb p hp n)]
    exact ih (alSet b2 (keyOf k n) (mkEntry k n .file))

theorem srcFold_as_append (k : ItemType) (names : List Str) (base : Cache)
    (hb : ∀ p ∈ base, ∀ n, ¬ p.1 = keyOf k n) :
    srcFold k names base = base ++ srcFold k names [] := by
  have h := srcFold_split k names base [] hb
  rwa [List.append_nil] at h

theorem srcFold_keys (k : ItemType) (names : List Str) (base : Cache) :
    ∀ p ∈ srcFold k names base, p ∈ base ∨ ∃ n, p.1 = keyOf k n := by
  induction names generalizing base with
  | nil => intro p hp; exact Or.inl hp
  | cons n ns ih =>
    intro p hp
    rcases ih (alSet base (keyOf k n) (mkEntry k n .file)) p hp with h | h
    · rcases mem_alSet base (keyOf k n) (mkEntry k n .file) p h with h | h
      · exact Or.inl h
      · exact Or.inr ⟨n, by rw [h]⟩
    · exact Or.inr h

theorem srcEntries_keys (k : ItemType) (r : Except Unit (List Str)) :
    ∀ p ∈ srcEntries k r, ∃ n, p.1 = keyOf k n := by
  intro p hp
  cases r with
  | error e => simp [srcEntries, tryFold] at hp
  | ok l =>
    rcases srcFold_keys k l [] p hp with h | h
    · simp at h
    · exact h

/-- C8: the registry rebuild factors into the independent contributions
of the four sources — each source's entries in the rebuilt snapshot
depend only on that source's own result, so a thrown error in any one
source callback (modelled as an error value caught by its try/catch)
contributes nothing but leaves every other source's entries cached; the
rebuild is a total function and never propagates an exception. -/
theorem refresh_isolated (hasMcpCb : Bool) (rm rp rs ra : Except Unit (List Str)) :
    updateCache hasMcpCb rm rp rs ra =
      (if hasMcpCb then srcEntries .mcp rm else []) ++
      srcEntries .plugin rp ++ srcEntries .skill rs ++ srcEntries .agent ra := by
  have tryFold_keys : ∀ (k : ItemType) (r : Except Unit (List Str)) (acc : Cache),
      ∀ p ∈ tryFold k r acc, p ∈ acc ∨ ∃ n, p.1 = keyOf k n := by
    intro k r acc p hp
    cases r with
    | error e => exact Or.inl hp
    | ok l => exact srcFold_keys k l acc p hp
  have tryFold_app : ∀ (k : ItemType) (r : Except Unit (List Str)) (acc : Cache),
      (∀ p ∈ acc, ∀ n, ¬ p.1 = keyOf k n) →
      tryFold k r acc = acc ++ srcEntries k r := by
    intro k r acc hacc
    cases r with
    | error e => simp [tryFold, srcEntries]
    | ok l => exact srcFold_as_append k l acc hacc
  have hM : ∀ p ∈ (if hasMcpCb then tryFold ItemType.mcp rm [] else []),
      ∃ n, p.1 = keyOf ItemType.mcp n := by
    intro p hp
    cases hasMcpCb with
    | false => simp at hp
    | true =>
      rcases tryFold_keys ItemType.mcp rm [] p (by simpa using hp) with h | h
      · simp at h
      · exact h
  have hMe : (if hasMcpCb then tryFold ItemType.mcp rm [] else ([] : Cache)) =
      (if hasMcpCb then srcEntries ItemType.mcp rm else []) := by
    cases hasMcpCb <;> simp [srcEntries]
  unfold updateCache
  rw [tryFold_app ItemType.plugin rp _ (fun p hp n => by
    rcases hM p hp with ⟨n2, hn2⟩
    rw [hn2]
    exact keyOf_ne_of_kind_ne ItemType.mcp ItemType.plugin (by decide) n2 n)]
  rw [tryFold_app ItemType.skill rs _ (fun p hp n => by
    rcases List.mem_append.mp hp with h | h
    · rcases hM p h with ⟨n2, hn2⟩
      rw [hn2]
      exact keyOf_ne_of_kind_ne ItemType.mcp ItemType.skill (by decide) n2 n
    · rcases srcEntries_keys ItemType.plugin rp p h with ⟨n2, hn2⟩
      rw [hn2]
      exact keyOf_ne_of_kind_ne ItemType.plugin ItemType.skill (by decide) n2 n)]
  rw [tryFold_app ItemType.agent ra _ (fun p hp n => by
    rcases List.mem_append.mp hp with h | h
    · rcases List.mem_append.mp h with h2 | h2
      · rcases hM p h2 with ⟨n2, hn2⟩
        rw [hn2]
        exact keyOf_ne_of_kind_ne ItemType.mcp ItemType.agent (by decide) n2 n
      · rcases srcEntries_keys ItemType.plugin rp p h2 with ⟨n2, hn2⟩
        rw [hn2]
        exact keyOf_ne_of_kind_ne ItemType.plugin ItemType.agent (by decide) n2 n
    · rcases srcEntries_keys ItemType.skill rs p h with ⟨n2, hn2⟩
      rw [hn2]
      exact keyOf_ne_of_kind_ne ItemType.skill ItemType.agent (by decide) n2 n)]
  rw [hMe, List.append_assoc, List.append_assoc]

/-- C6 witness: a name cached under both plugin and skill resolves to
plugin by the tie-break. -/
theorem generic_name_resolution_w :
    listStartsWith ['/'] dupName = false ∧
    listStartsWith ['m', 'c', 'p', '-'] dupName = false ∧
    kindsWith dupCache dupName = [ItemType.plugin, ItemType.skill] ∧
    classifyGenericKind (some dupCache) dupName = .plugin ∧
    resolveType dupCache dupName = .plugin :=
  ⟨by decide, by decide, by decide,
   ((generic_name_resolution dupCache dupName (by decide) (by decide)).2
     ItemType.plugin [ItemType.skill] (by decide)).1,
   ((generic_name_resolution dupCache dupName (by decide) (by decide)).2
     ItemType.plugin [ItemType.skill] (by decide)).2⟩

/-- C1 counterexample: with agent alpha and skill beta active, a chunk
containing the raw line of the Done pattern — but no quick-filter marker
— stops nothing: the listener state is unchanged and no stop
notification is emitted, contradicting the claim that any chunk
containing an end-of-execution phrase line stops every active id. -/
theorem end_phrase_raw_line_no_stop :
    sAlphaBeta.activeIds =
      [("alpha".toList, ItemType.agent), ("beta".toList, ItemType.skill)] ∧
    containsSub "⎿ Done (3 tool uses)".toList chunkDone = true ∧
    handleTerminalData 200 chunkDone sAlphaBeta = sAlphaBeta ∧
    stopsOf (handleTerminalData 200 chunkDone sAlphaBeta) = [] := by
  refine ⟨by decide, by decide, by decide, by decide⟩

theorem alLookup_alDelete [DecidableEq α] (m : List (α × β)) (k x : α) :
    alLookup (alDelete m k) x = if x = k then none else alLookup m x := by
  induction m with
  | nil => simp [alDelete, alLookup]
  | cons p tl ih =>
    by_cases hp : p.1 = k
    · rw [alDelete, if_pos hp, ih]
      by_cases hx : x = k
      · rw [if_pos hx, if_pos hx]
      · rw [if_neg hx, if_neg hx, alLookup, if_neg (by rw [hp]; exact fun hh => hx hh.symm)]
    · rw [alDelete, if_neg hp]
      by_cases hx : p.1 = x
      · rw [alLookup, if_pos hx, if_neg (fun hh => hp (hx.trans hh)), alLookup, if_pos hx]
      · rw [alLookup, if_neg hx, ih]
        by_cases hxk : x = k
        · rw [if_pos hxk, if_pos hxk]
        · rw [if_neg hxk, if_neg hxk, alLookup, if_neg hx]

theorem stopStep_notifications (t : Nat) (acc : ListenerState) (p : Str × ItemType) :
    (stopStep t acc p).notifications =
      acc.notifications ++ [{ id := p.1, name := [], ty := p.2,
                              kind := .stop, time := t }] := by
  unfold stopStep
  cases alLookup acc.activeTimeouts p.1 <;> rfl

theorem stopStep_activeTimeouts (t : Nat) (acc : ListenerState) (p : Str × ItemType) :
    (stopStep t acc p).activeTimeouts = alDelete acc.activeTimeouts p.1 := by
  unfold stopStep
  cases alLookup acc.activeTimeouts p.1 <;> rfl

theorem stopFold_spec (t : Nat) (l : List (Str × ItemType)) (acc : ListenerState) :
    (∀ n ∈ acc.notifications, n ∈ (l.foldl (stopStep t) acc).notifications) ∧
    (∀ p ∈ l, ({ id := p.1, name := [], ty := p.2, kind := .stop, time := t } :
        Notification) ∈ (l.foldl (stopStep t) acc).notifications) ∧
    (∀ x, alLookup acc.activeTimeouts x = none →
      alLookup (l.foldl (stopStep t) acc).activeTimeouts x = none) ∧
    (∀ p ∈ l, alLookup (l.foldl (stopStep t) acc).activeTimeouts p.1 = none) := by
  induction l generalizing acc with
  | nil => exact ⟨fun n hn => hn, fun p hp => absurd hp (List.not_mem_nil p),
      fun x hx => hx, fun p hp => absurd hp (List.not_mem_nil p)⟩
  | cons q tl ih =>
    have hfold : (q :: tl).foldl (stopStep t) acc = tl.foldl (stopStep t) (stopStep t acc q) := rfl
    obtain ⟨ih1, ih2, ih3, ih4⟩ := ih (stopStep t acc q)
    refine ⟨?_, ?_, ?_, ?_⟩
    · intro n hn
      rw [hfold]
      exact ih1 n (by rw [stopStep_notifications]; exact List.mem_append_left _ hn)
    · intro p hp
      rw [hfold]
      rcases List.mem_cons.mp hp with hp | hp
      · subst hp
        exact ih1 _ (by rw [stopStep_notifications]; exact List.mem_append_right _ (List.mem_singleton.mpr rfl))
      · exact ih2 p hp
    · intro x hx
      rw [hfold]
      refine ih3 x ?_
      rw [stopStep_activeTimeouts, alLookup_alDelete]
      by_cases hxq : x = q.1
      · rw [if_pos hxq]
      · rw [if_neg hxq]; exact hx
    · intro p hp
      rw [hfold]
      rcases List.mem_cons.mp hp with hp | hp
      · subst hp
        refine ih3 p.1 ?_
        rw [stopStep_activeTimeouts, alLookup_alDelete, if_pos rfl]
      · exact ih4 p hp

theorem stopAll_spec (t : Nat) (s : ListenerState) :
    (stopAll t s).activeIds = [] ∧
    (∀ p ∈ s.activeIds,
      ({ id := p.1, name := [], ty := p.2, kind := .stop, time := t } :
        Notification) ∈ (stopAll t s).notifications) ∧
    (∀ p ∈ s.activeIds, alLookup (stopAll t s).activeTimeouts p.1 = none) := by
  obtain ⟨h1, h2, h3, h4⟩ := stopFold_spec t s.activeIds s
  exact ⟨rfl, h2, h4⟩

theorem mem_keys_alSet (m : List (Str × ItemType)) (k : Str) (v : ItemType) :
    ∀ p ∈ m, ∃ q ∈ alSet m k v, q.1 = p.1 := by
  induction m with
  | nil => intro p hp; exact absurd hp (List.not_mem_nil p)
  | cons r tl ih =>
    intro p hp
    by_cases hr : r.1 = k
    · rw [alSet, if_pos hr]
      rcases List.mem_cons.mp hp with hp | hp
      · exact ⟨(k, v), List.mem_cons_self _ _, by rw [hp, hr]⟩
      · exact ⟨p, List.mem_cons_of_mem _ hp, rfl⟩
    · rw [alSet, if_neg hr]
      rcases List.mem_cons.mp hp with hp | hp
      · exact ⟨r, List.mem_cons_self _ _, by rw [hp]⟩
      · rcases ih p hp with ⟨q, hq, hq1⟩
        exact ⟨q, List.mem_cons_of_mem _ hq, hq1⟩

theorem alSet_ne_nil (m : List (Str × ItemType)) (k : Str) (v : ItemType) :
    alSet m k v ≠ [] := by
  cases m with
  | nil => simp [alSet]
  | cons r tl =>
    by_cases hr : r.1 = k <;> simp [alSet, hr]

theorem startPhase_keys (t : Nat) (s : ListenerState) (ev : TerminalEvent) :
    (∀ p ∈ s.activeIds, ∃ q ∈ (startPhase t s ev).activeIds, q.1 = p.1) ∧
    (s.activeIds ≠ [] → (startPhase t s ev).activeIds ≠ []) := by
  have hid : ∀ (s' : ListenerState), ∀ p ∈ s'.activeIds, ∃ q ∈ s'.activeIds, q.1 = p.1 :=
    fun s' p hp => ⟨p, hp, rfl⟩
  have hsome : ∀ (id : Str) (ty : ItemType) (c : Str) (s' : ListenerState),
      (∀ p ∈ s'.activeIds, ∃ q ∈ (startItem t id ty c s').activeIds, q.1 = p.1) ∧
      (s'.activeIds ≠ [] → (startItem t id ty c s').activeIds ≠ []) :=
    fun id ty c s' => ⟨mem_keys_alSet s'.activeIds id ty, fun _ => alSet_ne_nil _ _ _⟩
  cases hty : ev.type
  case tool_call => simp only [startPhase, hty]; exact ⟨hid s, fun h => h⟩
  case plan_progress => simp only [startPhase, hty]; exact ⟨hid s, fun h => h⟩
  case agent_call =>
    simp only [startPhase, hty]
    cases hA : ev.agent with
    | none => exact ⟨hid s, fun h => h⟩
    | some id => exact hsome id .agent ev.content s
  case skill_call =>
    simp only [startPhase, hty]
    cases hA : ev.skill with
    | none => exact ⟨hid s, fun h => h⟩
    | some id => exact hsome id .skill ev.content s
  case plugin_call =>
    simp only [startPhase, hty]
    cases hA : ev.plugin with
    | none => exact ⟨hid s, fun h => h⟩
    | some id => exact hsome id .plugin ev.content s
  case mcp_call =>
    simp only [startPhase, hty]
    cases hA : ev.mcp with
    | none => exact ⟨hid s, fun h => h⟩
    | some id => exact hsome id .mcp ev.content s

/-- C1 amended: an end-of-execution phrase stops every currently active
id only when it occurs in the content of a classified, deduplicated
event; processing such an event while ids are active empties the
active-item set, emits a stop notification for every previously active
id in that same pass, and removes each such id's armed-timeout map
entry. -/
theorem end_signal_event_stops_all (t : Nat) (s : ListenerState) (ev : TerminalEvent)
    (hc : ev.content ≠ []) (he : checkEndSignal ev.content = true)
    (ha : s.activeIds ≠ []) :
    (processEvent t s ev).activeIds = [] ∧
    (∀ p ∈ s.activeIds, ∃ ty,
      ({ id := p.1, name := [], ty := ty, kind := .stop, time := t } :
        Notification) ∈ (processEvent t s ev).notifications) ∧
    (∀ p ∈ s.activeIds, alLookup (processEvent t s ev).activeTimeouts p.1 = none) := by
  obtain ⟨hkeys, hne⟩ := startPhase_keys t s ev
  have hcond : (!ev.content.isEmpty && checkEndSignal ev.content &&
      0 < (startPhase t s ev).activeIds.length) = true := by
    have h1 : ev.content.isEmpty = false := by
      cases hcc : ev.content with
      | nil => exact absurd hcc hc
      | cons a l => rfl
    have h2 : 0 < (startPhase t s ev).activeIds.length :=
      List.length_pos.mpr (hne ha)
    simp [h1, he, h2]
  obtain ⟨hs1, hs2, hs3⟩ := stopAll_spec t (startPhase t s ev)
  have hpe : processEvent t s ev =
      { stopAll t (startPhase t s ev) with
        eventBuffer := (stopAll t (startPhase t s ev)).eventBuffer ++ [ev] } := by
    simp only [processEvent]
    rw [if_pos hcond]
  refine ⟨?_, ?_, ?_⟩
  · rw [hpe]
    exact hs1
  · intro p hp
    rcases hkeys p hp with ⟨q, hq, hq1⟩
    refine ⟨q.2, ?_⟩
    rw [hpe]
    show _ ∈ (stopAll t (startPhase t s ev)).notifications
    rw [← hq1]
    exact hs2 q hq
  · intro p hp
    rcases hkeys p hp with ⟨q, hq, hq1⟩
    rw [hpe]
    show alLookup (stopAll t (startPhase t s ev)).activeTimeouts p.1 = none
    rw [← hq1]
    exact hs3 q hq

/-- C1 witness: a tool event whose content says Finished stops the two
active ids. -/
theorem end_signal_event_stops_all_w :
    sAlphaBeta.activeIds ≠ [] ∧
    checkEndSignal "Finished compile".toList = true ∧
    (processEvent 300 sAlphaBeta
      { type := .tool_call, content := "Finished compile".toList,
        tool := some "Bash".toList, raw := "[Bash] Finished compile".toList }).activeIds = [] :=
  ⟨by decide, by decide,
   (end_signal_event_stops_all 300 sAlphaBeta
     { type := .tool_call, content := "Finished compile".toList,
       tool := some "Bash".toList, raw := "[Bash] Finished compile".toList }
     (by decide) (by decide) (by decide)).1⟩

theorem handle_decomp (t : Nat) (data : Str) (s : ListenerState)
    (evs : List TerminalEvent) (pst2 : ParserState)
    (uniq : List TerminalEvent) (rec2 : List (EvKey × Nat))
    (hrel : hasRelevantContent data = true)
    (husr : isUserInputStart (trimList data) = false)
    (hparse : parseChunk s.pst data = (evs, pst2))
    (hne : evs.isEmpty = false)
    (hdd : deduplicateEvents t evs s.recentEvents = (uniq, rec2)) :
    handleTerminalData t data s =
      (let s3 := uniq.foldl (processEvent t) { s with pst := pst2, recentEvents := rec2 }
       let s4 := if uniq.isEmpty then s3
                 else { s3 with emittedBatches := s3.emittedBatches ++ [uniq] }
       let s5 := { s4 with eventBuffer := trimBuffer s4.eventBuffer }
       { s5 with recentEvents := cleanupDuplicateRecords t s5.recentEvents }) := by
  simp only [handleTerminalData, hrel, husr, hparse, hne, Bool.not_true, Bool.false_eq_true,
    if_false, ite_false]
  have hrec : ({ s with pst := pst2 } : ListenerState).recentEvents = s.recentEvents := rfl
  rw [hrec, hdd]

theorem cleanup_keep_fresh (t : Nat) (k : EvKey) :
    cleanupDuplicateRecords t [(k, t)] = [(k, t)] := by
  simp [cleanupDuplicateRecords, Nat.sub_self]

theorem xrun1 (t0 : Nat) : handleTerminalData t0 chunkX initListener = xState1 t0 := by
  have h := handle_decomp t0 chunkX initListener [evX] {} [evX] [(keyX, t0)]
    (by decide) (by decide) (by decide) (by decide) rfl
  rw [h]
  show ({ eventBuffer := [evX], recentEvents := cleanupDuplicateRecords t0 [(keyX, t0)],
          activeIds := [(xStr, ItemType.agent)], activeTimeouts := [(xStr, 0)],
          timers := [{ tid := 0, id := xStr, ty := ItemType.agent,
                       fireAt := t0 + AGENT_TIMEOUT, cancelled := false }],
          nextTid := 1,
          notifications := [{ id := xStr, name := xStr, ty := ItemType.agent,
                              kind := SKind.start, time := t0 }],
          emittedBatches := [[evX]],
          pst := { resolver := none, discoveredMcps := [] } } : ListenerState) = xState1 t0
  rw [cleanup_keep_fresh]
  rfl

theorem xrun2 (t0 t1 : Nat) (h1 : DUPLICATE_WINDOW ≤ t1 - t0) :
    handleTerminalData t1 chunkX (xState1 t0) = xState2 t0 t1 := by
  have hdd : deduplicateEvents t1 [evX] [(keyX, t0)] = ([evX], [(keyX, t1)]) := by
    show (if t1 - t0 < DUPLICATE_WINDOW then (([] : List TerminalEvent), [(keyX, t0)])
          else ([evX], alSet [(keyX, t0)] keyX t1)) = ([evX], [(keyX, t1)])
    rw [if_neg (by omega)]
    rfl
  have h := handle_decomp t1 chunkX (xState1 t0) [evX] {} [evX] [(keyX, t1)]
    (by decide) (by decide) rfl (by decide) hdd
  rw [h]
  show ({ eventBuffer := [evX, evX], recentEvents := cleanupDuplicateRecords t1 [(keyX, t1)],
          activeIds := [(xStr, ItemType.agent)], activeTimeouts := [(xStr, 1)],
          timers := [{ tid := 0, id := xStr, ty := ItemType.agent,
                       fireAt := t0 + AGENT_TIMEOUT, cancelled := false },
                     { tid := 1, id := xStr, ty := ItemType.agent,
                       fireAt := t1 + AGENT_TIMEOUT, cancelled := false }],
          nextTid := 2,
          notifications := [{ id := xStr, name := xStr, ty := ItemType.agent,
                              kind := SKind.start, time := t0 },
                            { id := xStr, name := xStr, ty := ItemType.agent,
                              kind := SKind.start, time := t1 }],
          emittedBatches := [[evX], [evX]],
          pst := { resolver := none, discoveredMcps := [] } } : ListenerState) = xState2 t0 t1
  rw [cleanup_keep_fresh]
  rfl

theorem xfire1 (t0 t1 : Nat) (h : t0 ≤ t1) :
    fireNext (xState2 t0 t1) =
      { eventBuffer := [evX, evX], recentEvents := [(keyX, t1)], activeIds := [],
        activeTimeouts := [],
        timers := [{ tid := 1, id := xStr, ty := ItemType.agent,
                     fireAt := t1 + AGENT_TIMEOUT, cancelled := false }],
        nextTid := 2,
        notifications := [{ id := xStr, name := xStr, ty := ItemType.agent,
                            kind := SKind.start, time := t0 },
                          { id := xStr, name := xStr, ty := ItemType.agent,
                            kind := SKind.start, time := t1 },
                          { id := xStr, name := [], ty := ItemType.agent,
                            kind := SKind.stop, time := t0 + AGENT_TIMEOUT }],
        emittedBatches := [[evX], [evX]],
        pst := { resolver := none, discoveredMcps := [] } } := by
  have hnt2 : ∀ (a b : Timer), a.cancelled = false → b.cancelled = false →
      ¬ b.fireAt < a.fireAt → nextTimer [a, b] = some a := by
    intro a b ha hb hlt
    unfold nextTimer
    simp only [List.foldl]
    rw [ha, hb]
    simp [hlt]
  have hnext : nextTimer (xState2 t0 t1).timers =
      some { tid := 0, id := xStr, ty := ItemType.agent,
             fireAt := t0 + AGENT_TIMEOUT, cancelled := false } := by
    have hx : (xState2 t0 t1).timers =
        [{ tid := 0, id := xStr, ty := ItemType.agent,
           fireAt := t0 + AGENT_TIMEOUT, cancelled := false },
         { tid := 1, id := xStr, ty := ItemType.agent,
           fireAt := t1 + AGENT_TIMEOUT, cancelled := false }] := rfl
    rw [hx]
    exact hnt2 _ _ rfl rfl (by simp only []; omega)
  simp only [fireNext, hnext]
  rfl

theorem xrun_two_stops (t0 t1 : Nat) (h : t0 ≤ t1) :
    stopsOf (runAllTimers (xState2 t0 t1)) =
      [{ id := xStr, name := [], ty := ItemType.agent, kind := SKind.stop,
         time := t0 + AGENT_TIMEOUT },
       { id := xStr, name := [], ty := ItemType.agent, kind := SKind.stop,
         time := t1 + AGENT_TIMEOUT }] := by
  have hrun : runAllTimers (xState2 t0 t1) = fireNext (fireNext (xState2 t0 t1)) := rfl
  rw [hrun, xfire1 t0 t1 h]
  rfl

/-- C2 counterexample: starting id X at 0 and again at 5000 leaves both
timeouts armed and uncancelled; letting the timers fire produces two
automatic stop notifications, at 10000 and 15000 — not exactly one at
15000 — so the previously armed timeout is neither cancelled nor
restarted. -/
theorem timeout_restart_cex :
    (handleTerminalData 5000 chunkX (handleTerminalData 0 chunkX initListener)).timers =
      [{ tid := 0, id := xStr, ty := ItemType.agent, fireAt := 10000, cancelled := false },
       { tid := 1, id := xStr, ty := ItemType.agent, fireAt := 15000, cancelled := false }] ∧
    stopsOf (runAllTimers
        (handleTerminalData 5000 chunkX (handleTerminalData 0 chunkX initListener))) =
      [{ id := xStr, name := [], ty := ItemType.agent, kind := SKind.stop, time := 10000 },
       { id := xStr, name := [], ty := ItemType.agent, kind := SKind.stop, time := 15000 }] ∧
    ¬ (stopsOf (runAllTimers
        (handleTerminalData 5000 chunkX (handleTerminalData 0 chunkX initListener))) =
        [{ id := xStr, name := [], ty := ItemType.agent, kind := SKind.stop, time := 15000 }]) :=
  ⟨by decide, by decide, by decide⟩

/-- C2 amended: when a start-type event for an already-active id is
processed before the armed timeout fires (and outside the dedup
window), the previous timeout is not cancelled: a second timeout is
armed in addition (stacking), and with no stop or end-signal the item
receives one automatic stop notification per armed timeout — the first
at the boundary measured from the first start, hence earlier than the
most recent start plus the timeout, and more than once in total. -/
theorem timeout_restart_stacks (t0 t1 : Nat)
    (h1 : DUPLICATE_WINDOW ≤ t1 - t0) (_h2 : t1 < t0 + AGENT_TIMEOUT) :
    handleTerminalData t1 chunkX (handleTerminalData t0 chunkX initListener) =
      xState2 t0 t1 ∧
    (xState2 t0 t1).timers.filter (fun tm => !tm.cancelled) =
      [{ tid := 0, id := xStr, ty := ItemType.agent,
         fireAt := t0 + AGENT_TIMEOUT, cancelled := false },
       { tid := 1, id := xStr, ty := ItemType.agent,
         fireAt := t1 + AGENT_TIMEOUT, cancelled := false }] ∧
    stopsOf (runAllTimers (xState2 t0 t1)) =
      [{ id := xStr, name := [], ty := ItemType.agent, kind := SKind.stop,
         time := t0 + AGENT_TIMEOUT },
       { id := xStr, name := [], ty := ItemType.agent, kind := SKind.stop,
         time := t1 + AGENT_TIMEOUT }] := by
  have h1n : (3000 : Nat) ≤ t1 - t0 := h1
  refine ⟨?_, rfl, xrun_two_stops t0 t1 (by omega)⟩
  rw [xrun1 t0]
  exact xrun2 t0 t1 h1

/-- C2 witness: the stacking behaviour at start times 0 and 5000. -/
theorem timeout_restart_stacks_w :
    DUPLICATE_WINDOW ≤ 5000 - 0 ∧ (5000 : Nat) < 0 + AGENT_TIMEOUT ∧
    handleTerminalData 5000 chunkX (handleTerminalData 0 chunkX initListener) =
      xState2 0 5000 :=
  ⟨by decide, by decide, (timeout_restart_stacks 0 5000 (by decide) (by decide)).1⟩

end CCMonitor
